import Mathlib

/-!
Shallow embedding of the update-decision and download-lifecycle core of the
knowledge-archival repository (src/src/sources/zim and its wikipedia mirror),
together with theorems settling the specification claims.

The Wikipedia implementations (wikipedia_download_manager.py,
wikipedia_backup_manager.py, connector.py) are line-for-line mirrors of the
ZIM ones for every function modelled here, so a single embedding covers both.
-/

namespace Knowledge

/-! ## Version tokens

Embeds the two regular expressions of the source:
`re.search(r'_(\d{4}-\d{2})\.', filename)` (zim_metadata_manager.py:83,
zim_download_manager.py:169) and `re.match(r'(\d{4})-(\d{2})', latest_version)`
(zim_download_manager.py:142).  `\d` is modelled as an ASCII digit. -/

/-- The six captured digit characters of a `_YYYY-MM.` version token. -/
structure VerTok where
  y1 : Char
  y2 : Char
  y3 : Char
  y4 : Char
  m1 : Char
  m2 : Char
deriving Repr, DecidableEq

/-- Numeric value of an ASCII digit character. -/
def digitVal (c : Char) : Nat := c.toNat - 48

/-- The captured group string `YYYY-MM` (`match.group(1)` of the search). -/
def VerTok.str (t : VerTok) : String :=
  String.mk [t.y1, t.y2, t.y3, t.y4, '-', t.m1, t.m2]

/-- `int(match.group(1))` of the year digits. -/
def VerTok.year (t : VerTok) : Nat :=
  ((digitVal t.y1 * 10 + digitVal t.y2) * 10 + digitVal t.y3) * 10 + digitVal t.y4

/-- `int(match.group(2))` of the month digits. -/
def VerTok.month (t : VerTok) : Nat :=
  digitVal t.m1 * 10 + digitVal t.m2

/-- Whether the fixed-width shape `_dddd-dd.` occurs at the head of the list;
the pattern has fixed width, so the regex matches at a position exactly when
the nine characters there have this shape. -/
def tokenAt : List Char → Option VerTok
  | '_' :: a :: b :: c :: d :: '-' :: e :: f :: '.' :: _ =>
    if a.isDigit && b.isDigit && c.isDigit && d.isDigit && e.isDigit && f.isDigit then
      some ⟨a, b, c, d, e, f⟩
    else none
  | _ => none

/-- Embeds `re.search(r'_(\d{4}-\d{2})\.', s)`: scan left to right for the
first occurrence of the token shape and capture the digits. -/
def searchVersionToken : List Char → Option VerTok
  | [] => none
  | l@(_ :: rest) =>
    match tokenAt l with
    | some t => some t
    | none => searchVersionToken rest

/-- The `YYYY-MM` version string extracted from a filename, as used by
`ZimMetadataManager.update_download_metadata` (zim_metadata_manager.py:83-87). -/
def extractVersionToken (s : String) : Option String :=
  (searchVersionToken s.data).map VerTok.str

/-- Embeds the `datetime(year, month, 1)` constructor guard: it raises
`ValueError` unless `1 <= year` and `1 <= month <= 12` (a four-digit year is
always at most 9999, so only the lower bounds and the month range matter). -/
def validDate (ym : Nat × Nat) : Bool :=
  decide (1 ≤ ym.1) && decide (1 ≤ ym.2) && decide (ym.2 ≤ 12)

/-- Embeds `ZimDownloadManager._extract_version_date`
(zim_download_manager.py:159-178): search for the `_YYYY-MM.` token, then
build `datetime(year, month, 1)`, returning `None` when either step fails. -/
def extract_version_date (s : String) : Option (Nat × Nat) :=
  match searchVersionToken s.data with
  | none => none
  | some t => if validDate (t.year, t.month) then some (t.year, t.month) else none

/-- Embeds `re.match(r'(\d{4})-(\d{2})', latest_version)`
(zim_download_manager.py:142): an anchored prefix match, no trailing anchor. -/
def matchStoredVersion : List Char → Option (Nat × Nat)
  | a :: b :: c :: d :: '-' :: e :: f :: _ =>
    if a.isDigit && b.isDigit && c.isDigit && d.isDigit && e.isDigit && f.isDigit then
      some (((digitVal a * 10 + digitVal b) * 10 + digitVal c) * 10 + digitVal d,
            digitVal e * 10 + digitVal f)
    else none
  | _ => none

/-- The stored version string parsed to a valid `(year, month)` pair:
prefix match followed by the `datetime` constructor guard. -/
def storedVersionYM (s : String) : Option (Nat × Nat) :=
  match matchStoredVersion s.data with
  | none => none
  | some ym => if validDate ym then some ym else none

/-- Comparison of two `datetime(year, month, 1)` values: both have day 1, so
this is lexicographic comparison on `(year, month)`. -/
def ymLt (a b : Nat × Nat) : Bool :=
  decide (a.1 < b.1) || (decide (a.1 = b.1) && decide (a.2 < b.2))

/-- Embeds `ZimDownloadManager.is_newer_version` (zim_download_manager.py:116-157).
`latestVersion` is the value returned by the metadata manager; Python treats
both `None` and the empty string as falsy in `if not latest_version`. -/
def is_newer_version (latestVersion : Option String) (remoteFile : String) : Bool :=
  match latestVersion with
  | none => true
  | some lv =>
    if lv = "" then true
    else
      match extract_version_date remoteFile with
      | none => false
      | some remote =>
        match matchStoredVersion lv.data with
        | none => true
        | some stored =>
          if validDate stored then ymLt stored remote else true

example : is_newer_version (some "2024-04") "wikipedia_en_2024-05.zim" = true := by decide
example : is_newer_version (some "2024-06") "wikipedia_en_2024-05.zim" = false := by decide
example : is_newer_version none "garbage" = true := by decide
example : is_newer_version (some "2024-04") "garbage.zim" = false := by decide
example : is_newer_version (some "late") "wikipedia_en_2024-05.zim" = true := by decide
example : is_newer_version (some "2024-99") "wikipedia_en_2024-05.zim" = true := by decide
example : extractVersionToken "wikipedia_en_2024-05.zim" = some "2024-05" := by decide
example : extractVersionToken "wiki.zim" = none := by decide

/-! ## Metadata store

Embeds `ZimMetadataManager` (zim_metadata_manager.py).  The JSON file is
modelled as the in-memory list of per-source objects; `load`/`save` round-trip
through the file, so a read-modify-write cycle is the pure transformation
below.  Timestamps are opaque inputs. -/

/-- One completed download (the dict built at zim_metadata_manager.py:105-111). -/
structure DownloadRecord where
  filename : String
  version : String
  size_bytes : Nat
  download_date : String
  download_timestamp : Nat
deriving Repr, DecidableEq

/-- Per-source aggregate (the dict shape at zim_metadata_manager.py:97-102). -/
structure SourceMeta where
  source_name : String
  downloads : List DownloadRecord
  latest_version : Option String
  latest_download_date : Option String
deriving Repr, DecidableEq

/-- The find-or-create-then-append walk of
`ZimMetadataManager.update_download_metadata` (zim_metadata_manager.py:89-114):
the first entry whose `source_name` matches is mutated in place (record
appended, `latest_version` and `latest_download_date` overwritten); when no
entry matches, a fresh entry is appended at the end. -/
def addRecord (name : String) (rec : DownloadRecord) (v : String) (now : String) :
    List SourceMeta → List SourceMeta
  | [] => [{ source_name := name, downloads := [rec],
             latest_version := some v, latest_download_date := some now }]
  | m :: rest =>
    if m.source_name = name then
      { m with downloads := m.downloads ++ [rec],
               latest_version := some v, latest_download_date := some now } :: rest
    else m :: addRecord name rec v now rest

/-- Embeds `ZimMetadataManager.update_download_metadata`
(zim_metadata_manager.py:72-115): extract the version token from the filename
(returning failure when there is none), then find-or-create this source's
entry and append the record.  Returns the success flag together with the
resulting store. -/
def update_download_metadata (name : String) (store : List SourceMeta)
    (filename : String) (size : Nat) (now : String) (ts : Nat) :
    Bool × List SourceMeta :=
  match extractVersionToken filename with
  | none => (false, store)
  | some v =>
    (true, addRecord name
      { filename := filename, version := v, size_bytes := size,
        download_date := now, download_timestamp := ts } v now store)

/-- Embeds `ZimMetadataManager.get_latest_version`
(zim_metadata_manager.py:117-128): the `latest_version` of the first entry
whose `source_name` matches, `None` when no entry matches. -/
def get_latest_version (name : String) (store : List SourceMeta) : Option String :=
  match store.find? (fun m => m.source_name == name) with
  | some m => m.latest_version
  | none => none

/-! ## Remote and local resolvers

Embeds `ZimDownloadManager.get_latest_remote_file` and
`get_latest_local_file` (zim_download_manager.py:55-114).  The configured
regex `file_pattern` is an opaque predicate `pat` giving its full-match
semantics; the remote listing is the list of `href` values of the page, with
`none` standing for a failed network call (the caught exception). -/

/-- Lexicographic code-point comparison of character lists: Python's string
`<`, which is also the order of Lean's `String` instances. -/
def strLtB : List Char → List Char → Bool
  | [], [] => false
  | [], _ :: _ => true
  | _ :: _, [] => false
  | a :: as, b :: bs =>
    if a < b then true else if b < a then false else strLtB as bs

theorem strLtB_iff : ∀ (x y : List Char), strLtB x y = true ↔ List.Lex (· < ·) x y
  | [], [] => by
    simp only [strLtB, Bool.false_eq_true, false_iff]
    exact List.Lex.not_nil_right _ _
  | [], b :: bs => by
    simp only [strLtB, true_iff]
    exact List.Lex.nil
  | a :: as, [] => by
    simp only [strLtB, Bool.false_eq_true, false_iff]
    exact List.Lex.not_nil_right _ _
  | a :: as, b :: bs => by
    rw [strLtB]
    by_cases hab : a < b
    · simp only [hab, if_true, true_iff]
      exact List.Lex.rel hab
    · by_cases hba : b < a
      · simp only [hab, hba, if_true, if_false, Bool.false_eq_true, false_iff]
        intro hlex
        cases hlex with
        | rel h => exact absurd h hab
        | cons h => exact absurd hba (lt_irrefl _)
      · have heq : a = b := le_antisymm (not_lt.mp hba) (not_lt.mp hab)
        subst heq
        simp only [lt_irrefl, if_false]
        rw [strLtB_iff as bs]
        constructor
        · exact fun h => List.Lex.cons h
        · intro h
          cases h with
          | rel h => exact absurd h (lt_irrefl _)
          | cons h => exact h

/-- A computation rule for deciding `String` order: the library's comparison
walks the strings by byte position, which the kernel cannot evaluate; this
instance decides the same order through the character lists. -/
instance (priority := 2000) decStrLE (a b : String) : Decidable (a ≤ b) :=
  decidable_of_iff (strLtB b.data a.data = false) (by
    constructor
    · intro h
      rw [← not_lt]
      intro hlt
      rw [String.lt_iff_toList_lt] at hlt
      have hx : strLtB b.data a.data = true :=
        (strLtB_iff b.data a.data).mpr hlt
      rw [hx] at h
      cases h
    · intro h
      rw [← not_lt, String.lt_iff_toList_lt] at h
      cases hx : strLtB b.data a.data with
      | false => rfl
      | true => exact absurd ((strLtB_iff b.data a.data).mp hx) h)

/-- The `sorted(matches)[-1]` idiom: sort ascending, take the last element;
`none` exactly when the list is empty. -/
def latestOf (l : List String) : Option String :=
  (l.insertionSort (· ≤ ·)).getLast?

/-- Embeds `ZimDownloadManager.get_latest_remote_file`
(zim_download_manager.py:55-86).  The regex `href="({pattern})"` collects the
hrefs whose value fully matches the pattern; a failed listing fetch is caught
and yields `(none, none)`. -/
def get_latest_remote_file (listing : Option (List String)) (pat : String → Bool)
    (sourceUrl : String) : Option String × Option String :=
  match listing with
  | none => (none, none)
  | some hrefs =>
    match latestOf (hrefs.filter pat) with
    | none => (none, none)
    | some latest => (some latest, some (sourceUrl ++ latest))

/-- Embeds Python's `re.match` (anchored at the start, no end anchor): the
translated pattern matches the filename exactly when some prefix of the
filename fully matches it. -/
def reMatch (pat : String → Bool) (s : String) : Bool :=
  (s.data.inits.map String.mk).any pat

/-- Embeds `ZimDownloadManager.get_latest_local_file`
(zim_download_manager.py:88-114): filter the directory listing by
`pattern.match`, sort, take the last, and join with the data directory.
The `[0-9]{4}` to `\d{4}` rewrite at line 97 preserves the match semantics,
so the same `pat` predicate is used. -/
def get_latest_local_file (pat : String → Bool) (dataDir : String)
    (files : List String) : Option String :=
  match latestOf (files.filter (reMatch pat)) with
  | none => none
  | some latest => some (dataDir ++ "/" ++ latest)

/-! ## Data directory filesystem

The data directory is modelled as an association list from filename to file
size; `os.listdir` is the list of keys. -/

/-- Data directory contents: filename paired with its size in bytes. -/
abbrev FS := List (String × Nat)

/-- Size of the file named `p`, `none` when it does not exist
(`os.path.exists` / `os.path.getsize`). -/
def FS.lookup (fs : FS) (p : String) : Option Nat :=
  (List.find? (fun e => e.1 == p) fs).map (·.2)

/-- Delete the file named `p` (`os.remove`; no-op when absent). -/
def FS.erase (fs : FS) (p : String) : FS :=
  fs.filter (fun e => !(e.1 == p))

/-- Create or overwrite the file named `p` with size `n`. -/
def FS.put : FS → String → Nat → FS
  | [], p, n => [(p, n)]
  | e :: rest, p, n => if e.1 = p then (p, n) :: rest else e :: FS.put rest p n

/-- Embeds `os.path.basename(url)` (equivalently `url.split('/')[-1]`):
the characters after the last `/`. -/
def basename (s : String) : String :=
  String.mk (s.data.foldl (fun acc c => if c = '/' then [] else acc ++ [c]) [])

example : basename "http://h/dir/wiki_2024-05.zim" = "wiki_2024-05.zim" := by decide

/-! ## Download manager

Embeds `ZimDownloadManager.download_file` (zim_download_manager.py:180-288).
The network behaviour of one call is an explicit script: whether the
streaming GET opens, the chunk sizes written before the stream either ends or
raises, and whether the final rename succeeds.  Progress logging (lines
216-242) has no effect on the result and is not modelled. -/

/-- Script of the environment behaviour during one `download_file` call. -/
structure DownloadRun where
  connectOk : Bool
  chunks : List Nat
  streamFails : Bool
  renameOk : Bool
deriving Repr, DecidableEq

/-- Result of one `download_file` call: returned flag, resulting data
directory, resulting metadata store, and whether the failure metric was
incremented. -/
structure DlResult where
  ok : Bool
  fs : FS
  store : List SourceMeta
  failInc : Bool
deriving Repr, DecidableEq

/-- Embeds `ZimDownloadManager.download_file`.  On any exception in the
streaming GET, the chunk loop or the rename, the handler at lines 276-288
removes the temp file if present, increments the failure metric and returns
`False`.  On success the temp file is renamed onto the final path, metrics
are updated, and `update_download_metadata` is called with its returned flag
discarded (line 261). -/
def download_file (name : String) (fs : FS) (store : List SourceMeta)
    (url : String) (run : DownloadRun) (now : String) (ts : Nat) : DlResult :=
  let target := basename url
  let temp := target ++ ".downloading"
  if !run.connectOk then
    -- the GET raised before the temp file was opened; a pre-existing temp
    -- file is still deleted by the cleanup handler
    { ok := false, fs := fs.erase temp, store := store, failInc := true }
  else if run.streamFails then
    -- the temp file holds the chunks written so far and is deleted
    { ok := false, fs := fs.erase temp, store := store, failInc := true }
  else if !run.renameOk then
    -- `os.rename` raised: the temp file (fully written) is deleted and the
    -- final path is untouched
    { ok := false, fs := fs.erase temp, store := store, failInc := true }
  else
    -- rename succeeded: the temp entry becomes the final entry, and the
    -- metadata update's success flag is ignored
    let size := run.chunks.sum
    { ok := true, fs := (fs.erase temp).put target size,
      store := (update_download_metadata name store target size now ts).2,
      failInc := false }

/-! ## Backup manager

Embeds `ZimBackupManager.cleanup_old_backups` (zim_backup_manager.py:98-118).
The backup directory is a list of `(full_path, mtime)` entries; the function
returns the entries it removes. -/

/-- Whether `s` contains `sub` as a substring (Python's `in` operator). -/
def containsStr (s sub : String) : Bool :=
  s.data.tails.any (fun t => sub.data.isPrefixOf t)

/-- The filter at zim_backup_manager.py:104:
`filename.endswith('.zim') and 'backup' in filename`. -/
def isBackupFile (name : String) : Bool :=
  ".zim".data.isSuffixOf name.data && containsStr name "backup"

/-- Descending order on modification time, the `sort(key=mtime, reverse=True)`
at zim_backup_manager.py:109. -/
def mtimeGe (a b : String × Nat) : Prop := b.2 ≤ a.2

instance : DecidableRel mtimeGe := fun a b => inferInstanceAs (Decidable (b.2 ≤ a.2))

instance : IsTotal (String × Nat) mtimeGe :=
  ⟨fun a b => (Nat.le_total b.2 a.2).elim Or.inl Or.inr⟩

instance : IsTrans (String × Nat) mtimeGe :=
  ⟨fun _ _ _ h h' => Nat.le_trans h' h⟩

/-- Embeds `ZimBackupManager.cleanup_old_backups`: list the backup-named
entries, sort newest first, and remove every entry beyond `maxBackups`
(the guard `len > max_backups` at line 112 is equivalent: dropping
`maxBackups` from a shorter list removes nothing).  Returns the removed
entries. -/
def cleanup_old_backups (entries : List (String × Nat)) (maxBackups : Nat) :
    List (String × Nat) :=
  ((entries.filter (fun e => isBackupFile e.1)).insertionSort mtimeGe).drop maxBackups

/-! ## Connector (update orchestrator)

Embeds `ZimConnector.check_for_update` and `ZimConnector.update_if_needed`
(connector.py:58-155).  The fixed configuration and the environment behaviour
of one call are collected in `Env`; the mutable world (data directory and
metadata store) in `St`.  Backup copying touches only the backup directory,
so for the orchestration result it is abstracted to its success flag
`backupCopyOk` (`shutil.copy2` plus the size verification,
zim_backup_manager.py:65-68). -/

/-- Configuration plus the environment's behaviour during one connector call. -/
structure Env where
  sourceName : String
  sourceUrl : String
  dataDir : String
  pat : String → Bool
  listing : Option (List String)
  run : DownloadRun
  backupCopyOk : Bool
  now : String
  ts : Nat

/-- The mutable world the connector acts on. -/
structure St where
  files : FS
  store : List SourceMeta
deriving Repr, DecidableEq

/-- Embeds `ZimBackupManager.backup_current_version`
(zim_backup_manager.py:39-96): success when there is no local file to
protect, otherwise the copy-and-verify outcome.  The data directory is not
modified. -/
def backup_current_version (env : Env) (st : St) : Bool :=
  match get_latest_local_file env.pat env.dataDir (st.files.map (·.1)) with
  | none => true
  | some _ => env.backupCopyOk

/-- Embeds `ZimConnector.check_for_update` (connector.py:58-110): resolve the
latest remote file (`False` when none), honour `force`, treat a missing local
file as needing an update, and otherwise defer to `is_newer_version`.
Also returns the download URL the connector stores in `self.download_url`. -/
def check_for_update (env : Env) (st : St) (force : Bool) : Bool × Option String :=
  match get_latest_remote_file env.listing env.pat env.sourceUrl with
  | (some latest, some url) =>
    if force then (true, some url)
    else
      match get_latest_local_file env.pat env.dataDir (st.files.map (·.1)) with
      | none => (true, some url)
      | some _ =>
        (is_newer_version (get_latest_version env.sourceName st.store) latest, some url)
  | _ => (false, none)

/-- Embeds `ZimVerificationService.verify_download`
(zim_verification_service.py:18-52): the file must exist and be non-empty;
the extension check only warns. -/
def verify_download (fs : FS) (target : String) : Bool :=
  match fs.lookup target with
  | none => false
  | some size => decide (0 < size)

/-- Result of one `update_if_needed` call: returned flag, resulting world,
and whether the backup and download steps ran. -/
structure UpdResult where
  ok : Bool
  st : St
  ranBackup : Bool
  ranDownload : Bool
deriving Repr, DecidableEq

/-- Embeds `ZimConnector.update_if_needed` (connector.py:112-155).  A failed
check (including a missing remote file) is reported as "no update needed" and
succeeds; then backup, download and verification run in order, each failure
aborting with `False`.  The `(true, none)` check outcome cannot occur, but is
modelled as the `TypeError` the connector would catch (return `False`). -/
def update_if_needed (env : Env) (st : St) (force : Bool) : UpdResult :=
  match check_for_update env st force with
  | (false, _) => { ok := true, st := st, ranBackup := false, ranDownload := false }
  | (true, durl) =>
    if !backup_current_version env st then
      { ok := false, st := st, ranBackup := true, ranDownload := false }
    else
      match durl with
      | none => { ok := false, st := st, ranBackup := true, ranDownload := false }
      | some url =>
        let d := download_file env.sourceName st.files st.store url env.run env.now env.ts
        let st' : St := { files := d.fs, store := d.store }
        if !d.ok then
          { ok := false, st := st', ranBackup := true, ranDownload := true }
        else if !verify_download d.fs (basename url) then
          { ok := false, st := st', ranBackup := true, ranDownload := true }
        else
          { ok := true, st := st', ranBackup := true, ranDownload := true }

/-- A concrete environment used by several examples below: one remote file
`wiki_2024-05.zim`, a fresh world, and an environment whose every step
succeeds. -/
def envOk : Env :=
  { sourceName := "wiki"
    sourceUrl := "http://h/"
    dataDir := "d"
    pat := fun s => s == "wiki_2024-05.zim"
    listing := some ["wiki_2024-05.zim"]
    run := { connectOk := true, chunks := [7], streamFails := false, renameOk := true }
    backupCopyOk := true
    now := "2024-05-03T10:00:00"
    ts := 1714730400 }

example :
    update_if_needed envOk ⟨[], []⟩ false =
      { ok := true
        st := { files := [("wiki_2024-05.zim", 7)]
                store := [{ source_name := "wiki"
                            downloads := [{ filename := "wiki_2024-05.zim"
                                            version := "2024-05"
                                            size_bytes := 7
                                            download_date := "2024-05-03T10:00:00"
                                            download_timestamp := 1714730400 }]
                            latest_version := some "2024-05"
                            latest_download_date := some "2024-05-03T10:00:00" }] }
        ranBackup := true
        ranDownload := true } := by decide

example :
    update_if_needed envOk (update_if_needed envOk ⟨[], []⟩ false).st false =
      { ok := true
        st := (update_if_needed envOk ⟨[], []⟩ false).st
        ranBackup := false
        ranDownload := false } := by decide

/-- All six captured characters of a token are digits. -/
def VerTok.digitsOk (t : VerTok) : Bool :=
  t.y1.isDigit && t.y2.isDigit && t.y3.isDigit && t.y4.isDigit && t.m1.isDigit && t.m2.isDigit

/-! ## Store invariant (claim C8) -/

/-- The derived-field invariant of one `SourceMetadata` entry:
`latest_version` mirrors the version of the last download, and is absent
exactly when there are no downloads. -/
def latestMirrors (m : SourceMeta) : Prop :=
  match m.downloads.getLast? with
  | none => m.latest_version = none
  | some r => m.latest_version = some r.version

/-- Well-formedness of the whole store: no two entries share a
`source_name`, and every entry satisfies `latestMirrors`. -/
def storeWF (store : List SourceMeta) : Prop :=
  store.Pairwise (fun a b => a.source_name ≠ b.source_name) ∧
    ∀ m ∈ store, latestMirrors m

/-- An environment whose remote listing fetch fails (claim C1). -/
def envNoRemote : Env := { envOk with listing := none }

/-- An environment whose single remote file has no version token in its name
(claims C2 and C9): the pattern matches `wiki.zim`. -/
def envNoTok : Env :=
  { envOk with pat := fun s => s == "wiki.zim", listing := some ["wiki.zim"] }

/-! ## Helper lemmas -/

theorem self_ne_append {s e : String} (he : e ≠ "") : s ≠ s ++ e := by
  intro h
  apply he
  apply String.ext
  have hd := congrArg String.data h
  rw [String.data_append] at hd
  have hlen := congrArg List.length hd
  rw [List.length_append] at hlen
  have h0 : e.data.length = 0 := by omega
  exact List.length_eq_zero.mp h0

theorem lt_self_append {s e : String} (he : e ≠ "") : s < s ++ e := by
  rw [String.lt_iff_toList_lt]
  have h2 : (s ++ e).toList = s.toList ++ e.toList := String.data_append s e
  rw [h2]
  show List.Lex (· < ·) s.toList (s.toList ++ e.toList)
  have hne : e.toList ≠ [] := fun h => he (String.ext h)
  generalize e.toList = ed at hne
  induction s.toList with
  | nil =>
    cases ed with
    | nil => exact absurd rfl hne
    | cons c cs => exact List.Lex.nil
  | cons a t ih => exact List.Lex.cons ih

theorem FS.lookup_erase (fs : FS) (p q : String) :
    (fs.erase p).lookup q = if q = p then none else fs.lookup q := by
  induction fs with
  | nil => simp [FS.erase, FS.lookup]
  | cons e rest ih =>
    by_cases hep : e.1 = p <;> by_cases heq : e.1 = q <;>
      simp_all [FS.erase, FS.lookup, List.filter_cons, List.find?_cons, beq_iff_eq]

theorem FS.lookup_put_self (fs : FS) (p : String) (n : Nat) :
    (fs.put p n).lookup p = some n := by
  induction fs with
  | nil => simp [FS.put, FS.lookup]
  | cons e rest ih =>
    by_cases hep : e.1 = p <;>
      simp_all [FS.put, FS.lookup, List.find?_cons, beq_iff_eq]

theorem mem_map_fst_put (fs : FS) (p : String) (n : Nat) :
    p ∈ (fs.put p n).map (·.1) := by
  induction fs with
  | nil => simp [FS.put]
  | cons e rest ih =>
    by_cases hep : e.1 = p <;> simp [FS.put, hep, ih]

theorem latestOf_eq_none_iff (l : List String) : latestOf l = none ↔ l = [] := by
  unfold latestOf
  rw [List.getLast?_eq_none_iff]
  constructor
  · intro h
    have hp := List.perm_insertionSort (α := String) (· ≤ ·) l
    rw [h] at hp
    exact (hp.symm).eq_nil
  · intro h; subst h; rfl

theorem latestOf_mem {l : List String} {m : String} (h : latestOf l = some m) : m ∈ l := by
  have hm : m ∈ l.insertionSort (· ≤ ·) := List.mem_of_mem_getLast? h
  exact (List.perm_insertionSort (· ≤ ·) l).mem_iff.mp hm

theorem sorted_le_getLast {s : List String} (hs : List.Sorted (· ≤ ·) s) {m x : String}
    (hm : s.getLast? = some m) (hx : x ∈ s) : x ≤ m := by
  induction s with
  | nil => cases hx
  | cons a t ih =>
    cases t with
    | nil =>
      simp only [List.getLast?_singleton, Option.some.injEq] at hm
      rcases List.mem_singleton.mp hx with rfl
      exact hm ▸ le_refl x
    | cons b u =>
      rw [List.getLast?_cons_cons] at hm
      rcases List.mem_cons.mp hx with rfl | hx
      · exact (List.sorted_cons.mp hs).1 m (List.mem_of_mem_getLast? hm)
      · exact ih (List.sorted_cons.mp hs).2 hm hx

theorem le_latestOf {l : List String} {m : String} (h : latestOf l = some m) :
    ∀ x ∈ l, x ≤ m := by
  intro x hx
  have hsorted : List.Sorted (· ≤ ·) (l.insertionSort (· ≤ ·)) :=
    List.sorted_insertionSort (· ≤ ·) l
  exact sorted_le_getLast hsorted h
    ((List.perm_insertionSort (· ≤ ·) l).mem_iff.mpr hx)

theorem mem_drop_sorted_iff {s : List (String × Nat)} (hs : List.Sorted mtimeGe s)
    (hnd : s.Pairwise (fun a b => a.2 ≠ b.2)) {k : Nat} {x : String × Nat} (hx : x ∈ s) :
    x ∈ s.drop k ↔ k ≤ s.countP (fun y => decide (x.2 < y.2)) := by
  induction s generalizing k with
  | nil => cases hx
  | cons a t ih =>
    cases k with
    | zero => simpa using hx
    | succ k =>
      have hsort := List.sorted_cons.mp hs
      have hpair := List.pairwise_cons.mp hnd
      rw [List.drop_succ_cons, List.countP_cons]
      rcases List.mem_cons.mp hx with rfl | hxt
      · have hpa : (decide (x.2 < x.2)) = false := by simp
        have hz : t.countP (fun y => decide (x.2 < y.2)) = 0 := by
          rw [List.countP_eq_zero]
          intro y hy
          simp only [decide_eq_true_eq]
          exact Nat.not_lt.mpr (hsort.1 y hy)
        rw [hpa, hz]
        constructor
        · intro hmem
          exact absurd rfl (hpair.1 x (List.mem_of_mem_drop hmem))
        · intro hk
          simp at hk
      · have hpa : (decide (x.2 < a.2)) = true := by
          simp only [decide_eq_true_eq]
          exact Nat.lt_of_le_of_ne (hsort.1 x hxt) (fun h => (hpair.1 x hxt) h.symm)
        rw [hpa, if_pos rfl]
        rw [ih hsort.2 hpair.2 hxt]
        omega

theorem get_latest_version_addRecord (name : String) (rec : DownloadRecord)
    (v now : String) (store : List SourceMeta) :
    get_latest_version name (addRecord name rec v now store) = some v := by
  induction store with
  | nil => simp [addRecord, get_latest_version, List.find?_cons]
  | cons m rest ih =>
    by_cases hm : m.source_name = name <;>
      simp_all [addRecord, get_latest_version, List.find?_cons, beq_iff_eq]

theorem mem_addRecord_name (name : String) (rec : DownloadRecord) (v now : String)
    (store : List SourceMeta) {x : SourceMeta}
    (hx : x ∈ addRecord name rec v now store) :
    x.source_name = name ∨ x.source_name ∈ store.map SourceMeta.source_name := by
  induction store with
  | nil =>
    simp [addRecord] at hx
    subst hx
    exact Or.inl rfl
  | cons m rest ih =>
    by_cases hm : m.source_name = name
    · rw [addRecord, if_pos hm] at hx
      rcases List.mem_cons.mp hx with rfl | hx
      · exact Or.inl hm
      · exact Or.inr (List.mem_map.mpr ⟨x, List.mem_cons_of_mem m hx, rfl⟩)
    · rw [addRecord, if_neg hm] at hx
      rcases List.mem_cons.mp hx with rfl | hx
      · exact Or.inr (by simp)
      · rcases ih hx with h | h
        · exact Or.inl h
        · exact Or.inr (by simp [h])

theorem tokenAt_digits {l : List Char} {t : VerTok} (h : tokenAt l = some t) :
    t.digitsOk = true := by
  unfold tokenAt at h
  split at h
  · split at h
    · rename_i a b c d e f _ hcond
      cases h
      simpa [VerTok.digitsOk] using hcond
    · cases h
  · cases h

theorem searchVersionToken_digits {l : List Char} {t : VerTok}
    (h : searchVersionToken l = some t) : t.digitsOk = true := by
  induction l with
  | nil => cases h
  | cons c rest ih =>
    rw [searchVersionToken] at h
    cases htok : tokenAt (c :: rest) with
    | some u => rw [htok] at h; cases h; exact tokenAt_digits htok
    | none => rw [htok] at h; exact ih h

theorem matchStoredVersion_token (t : VerTok) :
    matchStoredVersion (t.str).data =
      (if t.digitsOk then some (t.year, t.month) else none) := by
  show matchStoredVersion [t.y1, t.y2, t.y3, t.y4, '-', t.m1, t.m2] = _
  rfl

/-- A remote filename compared against its own recorded version token is
never reported as newer: either the token is not a valid date (the remote
parse fails, returning `false`), or both sides parse to the same pair and
the strict comparison fails. -/
theorem is_newer_version_self {f tok : String} (h : extractVersionToken f = some tok) :
    is_newer_version (some tok) f = false := by
  unfold extractVersionToken at h
  cases hs : searchVersionToken f.data with
  | none => rw [hs] at h; cases h
  | some t =>
    rw [hs] at h
    simp only [Option.map_some', Option.some.injEq] at h
    subst h
    have hdig := searchVersionToken_digits hs
    have hne : ¬ (t.str = "") := by
      intro hh
      have hd := congrArg String.data hh
      simp [VerTok.str] at hd
    have hred : is_newer_version (some t.str) f =
        (if t.str = "" then true
         else match extract_version_date f with
           | none => false
           | some remote =>
             match matchStoredVersion t.str.data with
             | none => true
             | some stored => if validDate stored then ymLt stored remote else true) := rfl
    rw [hred, if_neg hne]
    unfold extract_version_date
    rw [hs]
    by_cases hv : validDate (t.year, t.month)
    · simp [hv, matchStoredVersion_token, hdig, ymLt]
    · simp [hv]

theorem get_latest_remote_some {listing : Option (List String)} {pat : String → Bool}
    {u f url : String}
    (h : get_latest_remote_file listing pat u = (some f, some url)) :
    ∃ l, listing = some l ∧ pat f = true ∧ f ∈ l ∧
      (∀ x ∈ l, pat x = true → x ≤ f) ∧ url = u ++ f := by
  cases listing with
  | none => simp [get_latest_remote_file] at h
  | some l =>
    refine ⟨l, rfl, ?_⟩
    have h2 : (match latestOf (l.filter pat) with
      | none => ((none : Option String), (none : Option String))
      | some latest => (some latest, some (u ++ latest))) = (some f, some url) := h
    cases hl : latestOf (l.filter pat) with
    | none => rw [hl] at h2; simp at h2
    | some m =>
      rw [hl] at h2
      simp only [Prod.mk.injEq, Option.some.injEq] at h2
      rename' h2 => h
      obtain ⟨rfl, rfl⟩ := h
      have hmem := List.mem_filter.mp (latestOf_mem hl)
      exact ⟨hmem.2, hmem.1,
        fun x hx hpx => le_latestOf hl x (List.mem_filter.mpr ⟨hx, hpx⟩), rfl⟩

/-- A string that fully matches the pattern also `re.match`-es it: the whole
string is one of its own prefixes. -/
theorem reMatch_of_full {pat : String → Bool} {s : String} (h : pat s = true) :
    reMatch pat s = true := by
  unfold reMatch
  rw [List.any_eq_true]
  refine ⟨s, ?_, h⟩
  rw [List.mem_map]
  exact ⟨s.data, List.mem_inits _ _ |>.mpr List.prefix_rfl, String.ext rfl⟩

/-- A string extending a full match still `re.match`-es the pattern. -/
theorem reMatch_of_extends {pat : String → Bool} {s ext : String} (h : pat s = true) :
    reMatch pat (s ++ ext) = true := by
  unfold reMatch
  rw [List.any_eq_true]
  refine ⟨s, ?_, h⟩
  rw [List.mem_map]
  refine ⟨s.data, ?_, String.ext rfl⟩
  rw [List.mem_inits, String.data_append]
  exact ⟨ext.data, rfl⟩

theorem addRecord_pairwise (name : String) (rec : DownloadRecord) (v now : String)
    {store : List SourceMeta}
    (h : store.Pairwise (fun a b => a.source_name ≠ b.source_name)) :
    (addRecord name rec v now store).Pairwise
      (fun a b => a.source_name ≠ b.source_name) := by
  induction store with
  | nil => simp [addRecord]
  | cons m rest ih =>
    have hp := List.pairwise_cons.mp h
    by_cases hm : m.source_name = name
    · rw [addRecord, if_pos hm]
      exact List.pairwise_cons.mpr ⟨fun y hy => hp.1 y hy, hp.2⟩
    · rw [addRecord, if_neg hm]
      refine List.pairwise_cons.mpr ⟨?_, ih hp.2⟩
      intro y hy
      rcases mem_addRecord_name name rec v now rest hy with h1 | h1
      · rw [h1]; exact hm
      · rcases List.mem_map.mp h1 with ⟨z, hz, hzz⟩
        rw [← hzz]
        exact hp.1 z hz

theorem addRecord_mirrors (name : String) {rec : DownloadRecord}
    {v : String} (now : String) (hrv : rec.version = v)
    {store : List SourceMeta} (h : ∀ m ∈ store, latestMirrors m) :
    ∀ m ∈ addRecord name rec v now store, latestMirrors m := by
  induction store with
  | nil =>
    intro m hm
    simp only [addRecord, List.mem_singleton] at hm
    subst hm
    simp [latestMirrors, hrv]
  | cons a rest ih =>
    intro m hm
    by_cases ha : a.source_name = name
    · rw [addRecord, if_pos ha] at hm
      rcases List.mem_cons.mp hm with rfl | hm
      · show latestMirrors _
        simp [latestMirrors, List.getLast?_concat, hrv]
      · exact h m (List.mem_cons_of_mem a hm)
    · rw [addRecord, if_neg ha] at hm
      rcases List.mem_cons.mp hm with rfl | hm
      · exact h m (by simp)
      · exact ih (fun x hx => h x (List.mem_cons_of_mem a hx)) m hm

/-! ## Claims -/

/-- C3: `isNewer(remoteFilename)` follows the four-row policy table exactly:
with no stored latest version (absent or empty) it returns true; otherwise,
with an unparseable version token in the remote filename it returns false;
otherwise, with a malformed stored `latestVersion` it returns true; and when
both parse to `(year, month)` pairs it returns true iff the remote pair is
strictly greater than the stored pair under lexicographic tuple
comparison. -/
theorem C3_isNewer_policy_table (lv : Option String) (remote : String) :
    ((lv = none ∨ lv = some "") → is_newer_version lv remote = true) ∧
    (∀ s, lv = some s → s ≠ "" → extract_version_date remote = none →
      is_newer_version lv remote = false) ∧
    (∀ s, lv = some s → s ≠ "" → extract_version_date remote ≠ none →
      storedVersionYM s = none → is_newer_version lv remote = true) ∧
    (∀ s r sv, lv = some s → s ≠ "" → extract_version_date remote = some r →
      storedVersionYM s = some sv → is_newer_version lv remote = ymLt sv r) := by
  refine ⟨?_, ?_, ?_, ?_⟩
  · rintro (rfl | rfl) <;> simp [is_newer_version]
  · rintro s rfl hs hre
    simp [is_newer_version, hs, hre]
  · rintro s rfl hs hre hsv
    cases hr : extract_version_date remote with
    | none => exact absurd hr hre
    | some r =>
      unfold storedVersionYM at hsv
      cases hmsv : matchStoredVersion s.data with
      | none => simp [is_newer_version, hs, hr, hmsv]
      | some ym =>
        rw [hmsv] at hsv
        have hsv2 : (if validDate ym = true then some ym else none) = none := hsv
        have hv : validDate ym = false := by
          by_cases h : validDate ym
          · rw [if_pos h] at hsv2; cases hsv2
          · simpa using h
        simp [is_newer_version, hs, hr, hmsv, hv]
  · rintro s r sv rfl hs hre hsv
    unfold storedVersionYM at hsv
    cases hmsv : matchStoredVersion s.data with
    | none => rw [hmsv] at hsv; cases hsv
    | some ym =>
      rw [hmsv] at hsv
      have hsv2 : (if validDate ym = true then some ym else none) = some sv := hsv
      have hv : validDate ym = true := by
        by_cases h : validDate ym
        · exact h
        · rw [if_neg h] at hsv2; cases hsv2
      rw [if_pos hv] at hsv2
      cases hsv2
      simp [is_newer_version, hs, hre, hmsv, hv]

/-- Witness for C3: all four rows of the policy table at concrete inputs. -/
theorem C3_witness :
    is_newer_version none "a_2024-05.zim" = true ∧
    is_newer_version (some "2024-04") "nodate.zim" = false ∧
    is_newer_version (some "junk") "a_2024-05.zim" = true ∧
    is_newer_version (some "2024-04") "a_2024-05.zim" = ymLt (2024, 4) (2024, 5) :=
  ⟨(C3_isNewer_policy_table none "a_2024-05.zim").1 (Or.inl rfl),
   (C3_isNewer_policy_table (some "2024-04") "nodate.zim").2.1 "2024-04" rfl
     (by decide) (by decide),
   (C3_isNewer_policy_table (some "junk") "a_2024-05.zim").2.2.1 "junk" rfl
     (by decide) (by decide) (by decide),
   (C3_isNewer_policy_table (some "2024-04") "a_2024-05.zim").2.2.2 "2024-04"
     (2024, 5) (2024, 4) rfl (by decide) (by decide) (by decide)⟩

/-- C6: `findLatestRemote` returns the lexicographically greatest filename
matching the configured pattern together with its full URL; for a listing
with no matches, or when the network call fails, it returns absent/absent,
and the failure is non-fatal to the caller: `check_for_update` reports it as
an ordinary boolean (no update found) rather than propagating an error. -/
theorem C6_find_latest_remote (pat : String → Bool) (u : String) :
    (get_latest_remote_file none pat u = (none, none)) ∧
    (∀ l, l.filter pat = [] → get_latest_remote_file (some l) pat u = (none, none)) ∧
    (∀ l, l.filter pat ≠ [] → ∃ m, m ∈ l ∧ pat m = true ∧
      (∀ x ∈ l, pat x = true → x ≤ m) ∧
      get_latest_remote_file (some l) pat u = (some m, some (u ++ m))) ∧
    (∀ (env : Env) (st : St) (force : Bool), env.listing = none →
      check_for_update env st force = (false, none)) := by
  refine ⟨rfl, ?_, ?_, ?_⟩
  · intro l hl
    show (match latestOf (l.filter pat) with
      | none => ((none : Option String), (none : Option String))
      | some latest => (some latest, some (u ++ latest))) = (none, none)
    rw [hl]
    rfl
  · intro l hl
    cases hm : latestOf (l.filter pat) with
    | none => exact absurd ((latestOf_eq_none_iff _).mp hm) hl
    | some m =>
      have hmf := List.mem_filter.mp (latestOf_mem hm)
      refine ⟨m, hmf.1, hmf.2,
        fun x hx hpx => le_latestOf hm x (List.mem_filter.mpr ⟨hx, hpx⟩), ?_⟩
      show (match latestOf (l.filter pat) with
        | none => ((none : Option String), (none : Option String))
        | some latest => (some latest, some (u ++ latest))) = (some m, some (u ++ m))
      rw [hm]
  · intro env st force h
    unfold check_for_update get_latest_remote_file
    rw [h]

/-- Witness for C6: a two-entry listing where the later filename wins, an
empty listing, a failed fetch, and the caller's boolean treatment. -/
theorem C6_witness :
    get_latest_remote_file none (fun s => s == "a_2024-05.zim") "u/" = (none, none) ∧
    get_latest_remote_file (some []) (fun s => s == "a_2024-05.zim") "u/" = (none, none) ∧
    (∃ m, m ∈ ["a_2024-05.zim", "b.html"] ∧ ((fun s => s == "a_2024-05.zim") m) = true ∧
      (∀ x ∈ ["a_2024-05.zim", "b.html"], ((fun s => s == "a_2024-05.zim") x) = true → x ≤ m) ∧
      get_latest_remote_file (some ["a_2024-05.zim", "b.html"])
        (fun s => s == "a_2024-05.zim") "u/" = (some m, some ("u/" ++ m))) ∧
    check_for_update { envOk with listing := none } ⟨[], []⟩ false = (false, none) :=
  ⟨(C6_find_latest_remote (fun s => s == "a_2024-05.zim") "u/").1,
   (C6_find_latest_remote (fun s => s == "a_2024-05.zim") "u/").2.1 [] (by decide),
   (C6_find_latest_remote (fun s => s == "a_2024-05.zim") "u/").2.2.1
     ["a_2024-05.zim", "b.html"] (by decide),
   (C6_find_latest_remote (fun s => s == "a_2024-05.zim") "u/").2.2.2
     { envOk with listing := none } ⟨[], []⟩ false rfl⟩

/-- C10 (implicit): `findLatestLocal` matches directory entries by pattern
prefix, not whole name: a file whose name extends a full pattern match (for
example a leftover `.downloading` temp file) is treated as a matching local
file, sorts lexicographically after the corresponding exact match, and when
it is the greatest match it is the path returned. -/
theorem C10_local_match_is_on_psubname (pat : String → Bool) (dataDir : String)
    (files : List String) (f ext : String) (hf : pat f = true) (hext : ext ≠ "")
    (hmem : (f ++ ext) ∈ files)
    (hmax : ∀ g ∈ files, reMatch pat g = true → g ≤ f ++ ext) :
    reMatch pat (f ++ ext) = true ∧ f < f ++ ext ∧
      get_latest_local_file pat dataDir files = some (dataDir ++ "/" ++ (f ++ ext)) := by
  have hext_match : reMatch pat (f ++ ext) = true := reMatch_of_extends hf
  refine ⟨hext_match, lt_self_append hext, ?_⟩
  have hmemf : (f ++ ext) ∈ files.filter (reMatch pat) :=
    List.mem_filter.mpr ⟨hmem, hext_match⟩
  cases hm : latestOf (files.filter (reMatch pat)) with
  | none =>
    rw [(latestOf_eq_none_iff _).mp hm] at hmemf
    cases hmemf
  | some m =>
    have hmf := List.mem_filter.mp (latestOf_mem hm)
    have h1 : m ≤ f ++ ext := hmax m hmf.1 hmf.2
    have h2 : f ++ ext ≤ m := le_latestOf hm _ hmemf
    have : m = f ++ ext := le_antisymm h1 h2
    subst this
    unfold get_latest_local_file
    rw [hm]

/-- Witness for C10: a directory holding `X_2024-05.zim` and a leftover
`X_2024-05.zim.downloading`; the temp file is returned as latest. -/
theorem C10_witness :
    reMatch (fun s => s == "X_2024-05.zim") ("X_2024-05.zim" ++ ".downloading") = true ∧
    "X_2024-05.zim" < "X_2024-05.zim" ++ ".downloading" ∧
    get_latest_local_file (fun s => s == "X_2024-05.zim") "d"
        ["X_2024-05.zim", "X_2024-05.zim.downloading"] =
      some ("d" ++ "/" ++ ("X_2024-05.zim" ++ ".downloading")) :=
  C10_local_match_is_on_psubname (fun s => s == "X_2024-05.zim") "d"
    ["X_2024-05.zim", "X_2024-05.zim.downloading"] "X_2024-05.zim" ".downloading"
    (by decide) (by decide) (by decide) (by decide)

/-- C7: round-trip: for every filename containing a parseable version token
and every size, `recordDownload` succeeds and a subsequent `latestVersion()`
on the same source yields exactly the token parsed from the filename. -/
theorem C7_record_then_latest (name : String) (store : List SourceMeta)
    (filename : String) (size : Nat) (now : String) (ts : Nat) (v : String)
    (hv : extractVersionToken filename = some v) :
    (update_download_metadata name store filename size now ts).1 = true ∧
    get_latest_version name
      (update_download_metadata name store filename size now ts).2 = some v := by
  unfold update_download_metadata
  rw [hv]
  exact ⟨rfl, get_latest_version_addRecord name _ v now store⟩

/-- Witness for C7 at a concrete filename and a non-empty store. -/
theorem C7_witness :
    (update_download_metadata "wiki"
      [{ source_name := "other", downloads := [], latest_version := none,
         latest_download_date := none }]
      "wiki_2024-05.zim" 7 "t" 0).1 = true ∧
    get_latest_version "wiki"
      (update_download_metadata "wiki"
        [{ source_name := "other", downloads := [], latest_version := none,
           latest_download_date := none }]
        "wiki_2024-05.zim" 7 "t" 0).2 = some "2024-05" :=
  C7_record_then_latest "wiki"
    [{ source_name := "other", downloads := [], latest_version := none,
       latest_download_date := none }]
    "wiki_2024-05.zim" 7 "t" 0 "2024-05" (by decide)

/-- C8: every `recordDownload` preserves the store invariant: no two entries
share a `source_name` (the entry is found-or-created before appending), and
each entry's `latest_version` equals the version of the last element of its
download sequence when that sequence is non-empty, and is absent when it is
empty. -/
theorem C8_invariant_preserved (name : String) (store : List SourceMeta)
    (filename : String) (size : Nat) (now : String) (ts : Nat)
    (h : storeWF store) :
    storeWF (update_download_metadata name store filename size now ts).2 := by
  unfold update_download_metadata
  cases hv : extractVersionToken filename with
  | none => exact h
  | some v =>
    exact ⟨addRecord_pairwise name _ v now h.1, addRecord_mirrors name now rfl h.2⟩

/-- Witness for C8: record a download into the empty store. -/
theorem C8_witness :
    storeWF (update_download_metadata "wiki" [] "wiki_2024-05.zim" 7 "t" 0).2 :=
  C8_invariant_preserved "wiki" [] "wiki_2024-05.zim" 7 "t" 0
    ⟨List.Pairwise.nil, fun m hm => absurd hm (List.not_mem_nil m)⟩

/-- C5: backup pruning removes exactly the backup files beyond the
`maxBackups` most recent by modification time: with pairwise-distinct
modification times, an entry is deleted iff it is a backup-named file of the
directory and at least `maxBackups` backup files are strictly more recent.
Selection is by modification time only, not by name. -/
theorem C5_cleanup_exactly_oldest (entries : List (String × Nat)) (k : Nat)
    (hnd : entries.Pairwise (fun a b => a.2 ≠ b.2)) (x : String × Nat) :
    x ∈ cleanup_old_backups entries k ↔
      (x ∈ entries ∧ isBackupFile x.1 = true ∧
        k ≤ (entries.filter (fun e => isBackupFile e.1)).countP
              (fun y => decide (x.2 < y.2))) := by
  unfold cleanup_old_backups
  set f := entries.filter (fun e => isBackupFile e.1) with hf
  have hperm := List.perm_insertionSort mtimeGe f
  have hsorted := List.sorted_insertionSort mtimeGe f
  have hndf : f.Pairwise (fun a b => a.2 ≠ b.2) :=
    List.Pairwise.sublist (List.filter_sublist entries) hnd
  have hnds : (f.insertionSort mtimeGe).Pairwise (fun a b => a.2 ≠ b.2) :=
    (List.Perm.pairwise_iff (fun h => Ne.symm h) hperm).mpr hndf
  constructor
  · intro hmem
    have hxs : x ∈ f.insertionSort mtimeGe := List.mem_of_mem_drop hmem
    have hxf : x ∈ f := hperm.mem_iff.mp hxs
    have hxe := List.mem_filter.mp hxf
    refine ⟨hxe.1, hxe.2, ?_⟩
    have hc := (mem_drop_sorted_iff hsorted hnds hxs).mp hmem
    rwa [hperm.countP_eq] at hc
  · rintro ⟨hxe, hxb, hcount⟩
    have hxf : x ∈ f := List.mem_filter.mpr ⟨hxe, hxb⟩
    have hxs : x ∈ f.insertionSort mtimeGe := hperm.mem_iff.mpr hxf
    exact (mem_drop_sorted_iff hsorted hnds hxs).mpr
      (by rw [hperm.countP_eq]; exact hcount)

/-- Witness for C5: with `maxBackups = 3` and five backups, the oldest file
is among the deleted ones (and by the theorem, exactly the two oldest are). -/
theorem C5_witness :
    ("b/w_backup_1.zim", 10) ∈ cleanup_old_backups
      [("b/w_backup_1.zim", 10), ("b/w_backup_2.zim", 20), ("b/w_backup_3.zim", 30),
       ("b/w_backup_4.zim", 40), ("b/w_backup_5.zim", 50)] 3 :=
  (C5_cleanup_exactly_oldest
    [("b/w_backup_1.zim", 10), ("b/w_backup_2.zim", 20), ("b/w_backup_3.zim", 30),
     ("b/w_backup_4.zim", 40), ("b/w_backup_5.zim", 50)] 3
    (by decide) ("b/w_backup_1.zim", 10)).mpr (by decide)

/-- C4: for every download whose run fails during the streaming GET, the
chunk writing, or the rename, the routine returns false, increments the
failure metric, deletes the temp file (no leftover `.downloading` file), and
never creates or modifies the final path: the final entry is exactly what it
was before the call, and the metadata store is untouched. -/
theorem C4_failure_cleanup (name : String) (fs : FS) (store : List SourceMeta)
    (url : String) (run : DownloadRun) (now : String) (ts : Nat)
    (hfail : run.connectOk = false ∨ run.streamFails = true ∨ run.renameOk = false) :
    (download_file name fs store url run now ts).ok = false ∧
    (download_file name fs store url run now ts).failInc = true ∧
    (download_file name fs store url run now ts).fs.lookup
      (basename url ++ ".downloading") = none ∧
    (download_file name fs store url run now ts).fs.lookup (basename url) =
      fs.lookup (basename url) ∧
    (download_file name fs store url run now ts).store = store := by
  have hshape : download_file name fs store url run now ts =
      { ok := false, fs := fs.erase (basename url ++ ".downloading"),
        store := store, failInc := true } := by
    rcases hfail with h | h | h <;>
      by_cases h1 : run.connectOk <;> by_cases h2 : run.streamFails <;>
      by_cases h3 : run.renameOk <;>
      simp_all [download_file]
  rw [hshape]
  refine ⟨rfl, rfl, ?_, ?_, rfl⟩
  · rw [FS.lookup_erase]
    simp
  · rw [FS.lookup_erase,
      if_neg (self_ne_append (e := ".downloading") (by decide))]

/-- Witness for C4: a run whose stream raises after one chunk, against a
directory already holding an older archive. -/
theorem C4_witness :
    ((download_file "wiki" [("old_2024-04.zim", 3)] [] "http://h/wiki_2024-05.zim"
        { connectOk := true, chunks := [5], streamFails := true, renameOk := true }
        "t" 0).ok = false ∧
     (download_file "wiki" [("old_2024-04.zim", 3)] [] "http://h/wiki_2024-05.zim"
        { connectOk := true, chunks := [5], streamFails := true, renameOk := true }
        "t" 0).failInc = true ∧
     (download_file "wiki" [("old_2024-04.zim", 3)] [] "http://h/wiki_2024-05.zim"
        { connectOk := true, chunks := [5], streamFails := true, renameOk := true }
        "t" 0).fs.lookup (basename "http://h/wiki_2024-05.zim" ++ ".downloading") = none ∧
     (download_file "wiki" [("old_2024-04.zim", 3)] [] "http://h/wiki_2024-05.zim"
        { connectOk := true, chunks := [5], streamFails := true, renameOk := true }
        "t" 0).fs.lookup (basename "http://h/wiki_2024-05.zim") =
       FS.lookup [("old_2024-04.zim", 3)] (basename "http://h/wiki_2024-05.zim") ∧
     (download_file "wiki" [("old_2024-04.zim", 3)] [] "http://h/wiki_2024-05.zim"
        { connectOk := true, chunks := [5], streamFails := true, renameOk := true }
        "t" 0).store = []) :=
  C4_failure_cleanup "wiki" [("old_2024-04.zim", 3)] [] "http://h/wiki_2024-05.zim"
    { connectOk := true, chunks := [5], streamFails := true, renameOk := true }
    "t" 0 (Or.inr (Or.inl rfl))

/-- Counterexample to C1 as stated: with the remote listing fetch failing
(resolver finds no remote file), `update_if_needed` returns true, not the
false the claim requires — the failed check is reported as "no update
needed" (connector.py:125-127). -/
theorem C1_counterexample :
    (update_if_needed envNoRemote ⟨[], []⟩ false).ok = true ∧
    ¬ ((update_if_needed envNoRemote ⟨[], []⟩ false).ok = false) := by decide

/-- C1 (amended): when the Remote Index Resolver finds no remote file,
`check_for_update` returns false, and `update_if_needed` treats that as
"no update needed": it performs neither backup nor download and returns
true (it does not fail the operation). -/
theorem C1_no_remote_is_no_update (env : Env) (st : St) (force : Bool)
    (h : get_latest_remote_file env.listing env.pat env.sourceUrl = (none, none)) :
    check_for_update env st force = (false, none) ∧
    update_if_needed env st force =
      { ok := true, st := st, ranBackup := false, ranDownload := false } := by
  have hc : check_for_update env st force = (false, none) := by
    unfold check_for_update
    rw [h]
  refine ⟨hc, ?_⟩
  unfold update_if_needed
  rw [hc]

/-- Witness for the amended C1 at the concrete failing environment. -/
theorem C1_witness :
    check_for_update envNoRemote ⟨[], []⟩ false = (false, none) ∧
    update_if_needed envNoRemote ⟨[], []⟩ false =
      { ok := true, st := ⟨[], []⟩, ranBackup := false, ranDownload := false } :=
  C1_no_remote_is_no_update envNoRemote ⟨[], []⟩ false (by decide)

/-- Counterexample to C2 as stated: downloading `wiki.zim` (no version token
in the final filename) succeeds end to end — `download_file` returns true,
not the false the claim requires, and no record is appended. -/
theorem C2_counterexample :
    (download_file "wiki" [] [] "http://h/wiki.zim"
      { connectOk := true, chunks := [5], streamFails := false, renameOk := true }
      "t" 0).ok = true ∧
    (download_file "wiki" [] [] "http://h/wiki.zim"
      { connectOk := true, chunks := [5], streamFails := false, renameOk := true }
      "t" 0).store = [] ∧
    extractVersionToken "wiki.zim" = none := by decide

/-- C2 (amended): after the temp file is promoted, appending the
`DownloadRecord` is attempted and `update_download_metadata` returns false
when no version token can be extracted from the final filename (no record is
appended) — but `download_file` discards that status
(zim_download_manager.py:261) and still returns true, so the download step
does not fail. -/
theorem C2_unversioned_metadata_failure_ignored (name : String) (fs : FS)
    (store : List SourceMeta) (url : String) (run : DownloadRun) (now : String)
    (ts : Nat) (h1 : run.connectOk = true) (h2 : run.streamFails = false)
    (h3 : run.renameOk = true)
    (htok : extractVersionToken (basename url) = none) :
    (update_download_metadata name store (basename url) run.chunks.sum now ts).1
      = false ∧
    (download_file name fs store url run now ts).ok = true ∧
    (download_file name fs store url run now ts).store = store := by
  refine ⟨?_, ?_, ?_⟩
  · unfold update_download_metadata
    rw [htok]
  · simp [download_file, h1, h2, h3]
  · simp [download_file, h1, h2, h3, update_download_metadata, htok]

/-- Witness for the amended C2 at the concrete un-versioned filename. -/
theorem C2_witness :
    (update_download_metadata "wiki" [] (basename "http://h/wiki.zim")
      (List.sum [5]) "t" 0).1 = false ∧
    (download_file "wiki" [] [] "http://h/wiki.zim"
      { connectOk := true, chunks := [5], streamFails := false, renameOk := true }
      "t" 0).ok = true ∧
    (download_file "wiki" [] [] "http://h/wiki.zim"
      { connectOk := true, chunks := [5], streamFails := false, renameOk := true }
      "t" 0).store = [] :=
  C2_unversioned_metadata_failure_ignored "wiki" [] [] "http://h/wiki.zim"
    { connectOk := true, chunks := [5], streamFails := false, renameOk := true }
    "t" 0 rfl rfl rfl (by decide)

theorem download_file_ok_shape {name : String} {fs : FS} {store : List SourceMeta}
    {url : String} {run : DownloadRun} {now : String} {ts : Nat}
    (h : (download_file name fs store url run now ts).ok = true) :
    download_file name fs store url run now ts =
      { ok := true
        fs := (fs.erase (basename url ++ ".downloading")).put (basename url)
                run.chunks.sum
        store := (update_download_metadata name store (basename url)
                    run.chunks.sum now ts).2
        failInc := false } := by
  by_cases h1 : run.connectOk <;> by_cases h2 : run.streamFails <;>
    by_cases h3 : run.renameOk <;> simp_all [download_file]

/-- Counterexample to C9 as stated: with the remote file `wiki.zim` (no
version token), the first `update_if_needed` completes a successful download,
yet — the metadata append having failed silently — the second call with the
remote listing unchanged runs the download again instead of short-circuiting. -/
theorem C9_counterexample :
    (update_if_needed envNoTok ⟨[], []⟩ false).ok = true ∧
    (update_if_needed envNoTok ⟨[], []⟩ false).ranDownload = true ∧
    (update_if_needed envNoTok
      (update_if_needed envNoTok ⟨[], []⟩ false).st false).ranDownload = true ∧
    (update_if_needed envNoTok
      (update_if_needed envNoTok ⟨[], []⟩ false).st false).ranBackup = true := by
  decide

/-- C9 (amended): idempotence holds provided the downloaded filename carries
a parseable version token (so the metadata record was written).  After a
successful `update_if_needed(force := false)` run that performed the
download, a second call with the remote listing unchanged performs no backup
and no download — the recorded latest version equals the remote version
token, so the check short-circuits at "no update needed" — and returns true
with the world unchanged. -/
theorem C9_second_call_short_circuits (env : Env) (st : St) (f url tok : String)
    (hrem : get_latest_remote_file env.listing env.pat env.sourceUrl
      = (some f, some url))
    (hbase : basename url = f)
    (htok : extractVersionToken f = some tok)
    (h1 : (update_if_needed env st false).ok = true)
    (h2 : (update_if_needed env st false).ranDownload = true) :
    update_if_needed env (update_if_needed env st false).st false =
      { ok := true, st := (update_if_needed env st false).st,
        ranBackup := false, ranDownload := false } := by
  obtain ⟨l, hlst, hpatf, hfl, hmax, hurl⟩ := get_latest_remote_some hrem
  have hcheck : ∃ b, check_for_update env st false = (b, some url) := by
    unfold check_for_update
    rw [hrem]
    cases get_latest_local_file env.pat env.dataDir (st.files.map (·.1)) <;>
      exact ⟨_, rfl⟩
  obtain ⟨b, hc⟩ := hcheck
  cases b with
  | false =>
    have hupd : update_if_needed env st false =
        { ok := true, st := st, ranBackup := false, ranDownload := false } := by
      unfold update_if_needed
      rw [hc]
    rw [hupd] at h2
    cases h2
  | true =>
    have hupd : update_if_needed env st false =
        (if !backup_current_version env st then
          { ok := false, st := st, ranBackup := true, ranDownload := false }
         else if !(download_file env.sourceName st.files st.store url env.run
                    env.now env.ts).ok then
          { ok := false,
            st := { files := (download_file env.sourceName st.files st.store url
                      env.run env.now env.ts).fs,
                    store := (download_file env.sourceName st.files st.store url
                      env.run env.now env.ts).store },
            ranBackup := true, ranDownload := true }
         else if !verify_download (download_file env.sourceName st.files st.store
                    url env.run env.now env.ts).fs (basename url) then
          { ok := false,
            st := { files := (download_file env.sourceName st.files st.store url
                      env.run env.now env.ts).fs,
                    store := (download_file env.sourceName st.files st.store url
                      env.run env.now env.ts).store },
            ranBackup := true, ranDownload := true }
         else
          { ok := true,
            st := { files := (download_file env.sourceName st.files st.store url
                      env.run env.now env.ts).fs,
                    store := (download_file env.sourceName st.files st.store url
                      env.run env.now env.ts).store },
            ranBackup := true, ranDownload := true }) := by
      unfold update_if_needed
      rw [hc]
    cases hb : backup_current_version env st with
    | false =>
      rw [hb] at hupd
      simp only [Bool.not_false, if_true] at hupd
      rw [hupd] at h1
      cases h1
    | true =>
      rw [hb] at hupd
      simp only [Bool.not_true, Bool.false_eq_true, if_false] at hupd
      cases hdok : (download_file env.sourceName st.files st.store url env.run
          env.now env.ts).ok with
      | false =>
        rw [hdok] at hupd
        simp only [Bool.not_false, if_true] at hupd
        rw [hupd] at h1
        cases h1
      | true =>
        rw [hdok] at hupd
        simp only [Bool.not_true, Bool.false_eq_true, if_false] at hupd
        have hshape := download_file_ok_shape hdok
        rw [hbase] at hshape
        rw [hshape] at hupd
        cases hver : verify_download (download_file env.sourceName st.files
            st.store url env.run env.now env.ts).fs (basename url) with
        | false =>
          rw [hshape] at hver
          rw [hver] at hupd
          simp only [Bool.not_false, if_true] at hupd
          rw [hupd] at h1
          cases h1
        | true =>
          rw [hshape] at hver
          rw [hver] at hupd
          simp only [Bool.not_true, Bool.false_eq_true, if_false] at hupd
          have hglv : get_latest_version env.sourceName
              (update_download_metadata env.sourceName st.store f
                env.run.chunks.sum env.now env.ts).2 = some tok := by
            unfold update_download_metadata
            rw [htok]
            exact get_latest_version_addRecord env.sourceName _ tok env.now st.store
          have hnewer := is_newer_version_self htok
          have hfmem : f ∈ ((st.files.erase (f ++ ".downloading")).put f
              env.run.chunks.sum).map (·.1) :=
            mem_map_fst_put (st.files.erase (f ++ ".downloading")) f _
          have hlocal2 : ∃ p, get_latest_local_file env.pat env.dataDir
              (((st.files.erase (f ++ ".downloading")).put f
                env.run.chunks.sum).map (·.1)) = some p := by
            cases hm : latestOf ((((st.files.erase (f ++ ".downloading")).put f
                env.run.chunks.sum).map (·.1)).filter (reMatch env.pat)) with
            | none =>
              have hne : f ∈ (((st.files.erase (f ++ ".downloading")).put f
                  env.run.chunks.sum).map (·.1)).filter (reMatch env.pat) :=
                List.mem_filter.mpr ⟨hfmem, reMatch_of_full hpatf⟩
              rw [(latestOf_eq_none_iff _).mp hm] at hne
              cases hne
            | some m =>
              refine ⟨env.dataDir ++ "/" ++ m, ?_⟩
              unfold get_latest_local_file
              rw [hm]
          obtain ⟨p, hp⟩ := hlocal2
          have hc2 : check_for_update env
              ⟨(st.files.erase (f ++ ".downloading")).put f env.run.chunks.sum,
               (update_download_metadata env.sourceName st.store f
                 env.run.chunks.sum env.now env.ts).2⟩ false = (false, some url) := by
            unfold check_for_update
            rw [hrem]
            show (match get_latest_local_file env.pat env.dataDir
                (((st.files.erase (f ++ ".downloading")).put f
                  env.run.chunks.sum).map (·.1)) with
              | none => (true, some url)
              | some _ =>
                (is_newer_version (get_latest_version env.sourceName
                  (update_download_metadata env.sourceName st.store f
                    env.run.chunks.sum env.now env.ts).2) f, some url))
              = (false, some url)
            rw [hp]
            show (is_newer_version (get_latest_version env.sourceName
              (update_download_metadata env.sourceName st.store f
                env.run.chunks.sum env.now env.ts).2) f, some url)
              = (false, some url)
            rw [hglv, hnewer]
          rw [hupd]
          show update_if_needed env
              ⟨(st.files.erase (f ++ ".downloading")).put f env.run.chunks.sum,
               (update_download_metadata env.sourceName st.store f
                 env.run.chunks.sum env.now env.ts).2⟩ false =
            { ok := true,
              st := ⟨(st.files.erase (f ++ ".downloading")).put f
                       env.run.chunks.sum,
                     (update_download_metadata env.sourceName st.store f
                       env.run.chunks.sum env.now env.ts).2⟩,
              ranBackup := false, ranDownload := false }
          unfold update_if_needed
          rw [hc2]

/-- Witness for the amended C9: one remote file `wiki_2024-05.zim`, fresh
world, everything succeeds; the second call changes nothing. -/
theorem C9_witness :
    update_if_needed envOk (update_if_needed envOk ⟨[], []⟩ false).st false =
      { ok := true, st := (update_if_needed envOk ⟨[], []⟩ false).st,
        ranBackup := false, ranDownload := false } :=
  C9_second_call_short_circuits envOk ⟨[], []⟩ "wiki_2024-05.zim"
    "http://h/wiki_2024-05.zim" "2024-05" (by decide) (by decide) (by decide)
    (by decide) (by decide)

end Knowledge
